import Mathlib

/-!
Verification development for the O2Physics analysis modules
higherMassResonances.cxx (PWGLF) and candidateSelectorD0Alice3Barrel.cxx
(PWGHF).  The candidate selection, pair combination and observable
computations are embedded shallowly: exact rational arithmetic models the
pure comparison logic, and real arithmetic models the four-vector,
boost and angle computations.  Histogram filling is modelled as a list of
fill records; random draws are modelled by explicitly passed unit-interval
parameters.
-/

namespace O2Phys

/-- Physics constant MassK0Short used by the task (GeV). -/
def massK0Short : ℚ := 0.497611

/-- Physics constant MassLambda0 used by the competing-cascade cut (GeV). -/
def massLambda0 : ℚ := 1.115683

/-- Daughter-track row of the resonance task: the fields of the track table
read by isSelectedV0Daughter. -/
structure Track where
  sign : ℤ
  eta : ℚ
  hasTPC : Bool
  isGlobalTrack : Bool
  tpcNClsFound : ℚ
  tpcNClsCrossedRows : ℤ
  tpcCrossedRowsOverFindableCls : ℚ
  tpcNSigmaPi : ℚ
  deriving DecidableEq

/-- V0 candidate row of the resonance task: the fields read by selectionV0,
the angular-separation cut and the pair loops.  The daughter tracks are
referenced by their global index into the track table.  The field
distovertotmom holds the value of the table getter of the same name at the
primary vertex of the collision being processed. -/
structure V0Cand where
  size : ℕ
  globalIndex : ℤ
  posTrackId : ℤ
  negTrackId : ℤ
  px : ℚ
  py : ℚ
  pz : ℚ
  pt : ℚ
  eta : ℚ
  phi : ℚ
  v0radius : ℚ
  dcaV0daughters : ℚ
  v0cosPA : ℚ
  dcav0topv : ℚ
  yK0Short : ℚ
  mK0Short : ℚ
  mLambda : ℚ
  mAntiLambda : ℚ
  distovertotmom : ℚ
  deriving DecidableEq

/-- Configurables of the HigherMassResonances task that the embedded code
paths read. -/
structure ResoCfg where
  cDCAv0topv : Bool
  cMaxV0DCA : ℚ
  confKsrapidity : ℚ
  confV0PtMin : ℚ
  confV0DCADaughMax : ℚ
  confV0CPAMin : ℚ
  confV0TranRadV0Min : ℚ
  confV0TranRadV0Max : ℚ
  cMaxV0LifeTime : ℚ
  applyCompetingcut : Bool
  competingcascrejlambda : ℚ
  cSigmaMassKs0 : ℚ
  cWidthKs0 : ℚ
  hasTPC : Bool
  globalTracks : Bool
  tpcCrossedrows : ℤ
  tpcCrossedrowsOverfcls : ℚ
  confDaughTPCnclsMin : ℚ
  confDaughEta : ℚ
  confDaughPIDCuts : ℚ
  applyAngSepCut : Bool
  angSepCut : ℚ
  selectTWOKsOnly : Bool
  activateTHnSparseCosThStarHelicity : Bool
  activateTHnSparseCosThStarProduction : Bool
  activateTHnSparseCosThStarBeam : Bool
  activateTHnSparseCosThStarRandom : Bool
  cRotations : ℕ
  rotationalCut : ℤ

/-- Embedding of selectionV0: the early-return chain of topological and mass
cuts on a single V0 candidate, rendered as the conjunction of the negated
rejection guards, in source order. -/
def selectionV0 (cfg : ResoCfg) (c : V0Cand) : Bool :=
  let ctauK0s := c.distovertotmom * massK0Short
  let lowmasscutks0 := 0.497 - cfg.cWidthKs0 * cfg.cSigmaMassKs0
  let highmasscutks0 := 0.497 + cfg.cWidthKs0 * cfg.cSigmaMassKs0
  (!(cfg.cDCAv0topv && decide (|c.dcav0topv| > cfg.cMaxV0DCA))) &&
  decide (|c.yK0Short| < cfg.confKsrapidity) &&
  decide (c.pt ≥ cfg.confV0PtMin) &&
  decide (c.dcaV0daughters ≤ cfg.confV0DCADaughMax) &&
  decide (c.v0cosPA ≥ cfg.confV0CPAMin) &&
  decide (c.v0radius ≥ cfg.confV0TranRadV0Min) &&
  decide (c.v0radius ≤ cfg.confV0TranRadV0Max) &&
  decide (|ctauK0s| ≤ cfg.cMaxV0LifeTime) &&
  (!(cfg.applyCompetingcut &&
     (decide (|c.mLambda - massLambda0| ≤ cfg.competingcascrejlambda) ||
      decide (|c.mAntiLambda - massLambda0| ≤ cfg.competingcascrejlambda)))) &&
  decide (c.mK0Short ≥ lowmasscutks0) &&
  decide (c.mK0Short ≤ highmasscutks0)

/-- Embedding of isSelectedV0Daughter: track-quality, charge-sign, eta and
PID cuts on one daughter track, rendered as the conjunction of the negated
rejection guards, in source order.  The branch on globalTracks mirrors the
if and else blocks of the source. -/
def isSelectedV0Daughter (cfg : ResoCfg) (t : Track) (charge : ℚ)
    (nsigmaV0Daughter : ℚ) : Bool :=
  (!(cfg.hasTPC && !t.hasTPC)) &&
  (if cfg.globalTracks then t.isGlobalTrack
   else
     decide (t.tpcNClsCrossedRows ≥ cfg.tpcCrossedrows) &&
     decide (t.tpcCrossedRowsOverFindableCls ≥ cfg.tpcCrossedrowsOverfcls) &&
     decide (t.tpcNClsFound ≥ cfg.confDaughTPCnclsMin)) &&
  (!(decide (charge < 0) && decide (t.sign > 0))) &&
  (!(decide (charge > 0) && decide (t.sign < 0))) &&
  decide (|t.eta| ≤ cfg.confDaughEta) &&
  decide (|nsigmaV0Daughter| ≤ cfg.confDaughPIDCuts)

/-- Decidable encoding of the comparison of a square root with a threshold:
for 0 ≤ s, the real inequality sqrt s > c holds exactly when c < 0 or
s > c squared.  Used to embed the angular-separation comparison exactly
over the rationals. -/
def sqrtGT (s c : ℚ) : Bool :=
  decide (c < 0) || decide (s > c ^ 2)

/-- Embedding of applyAngSep: the eta-phi angular separation between two
candidates, compared against the configured cut when the cut is enabled.
The source compares sqrt of the squared separation, encoded via sqrtGT. -/
def applyAngSep (cfg : ResoCfg) (c1 c2 : V0Cand) : Bool :=
  let angleSq := (c1.eta - c2.eta) ^ 2 + (c1.phi - c2.phi) ^ 2
  !(cfg.applyAngSepCut && sqrtGT angleSq cfg.angSepCut)

/-- Guards of the same-event pair loop of processSE that precede the
v0indexes bookkeeping: nonzero table sizes, selectionV0 on both candidates
and isSelectedV0Daughter on all four daughter tracks.  The track store trk
resolves a track global index to its row. -/
def prePairPasses (cfg : ResoCfg) (trk : ℤ → Track) (v1 v2 : V0Cand) : Bool :=
  decide (v1.size ≠ 0) && decide (v2.size ≠ 0) &&
  selectionV0 cfg v1 && selectionV0 cfg v2 &&
  isSelectedV0Daughter cfg (trk v1.negTrackId) (-1) (trk v1.negTrackId).tpcNSigmaPi &&
  isSelectedV0Daughter cfg (trk v1.posTrackId) 1 (trk v1.posTrackId).tpcNSigmaPi &&
  isSelectedV0Daughter cfg (trk v2.posTrackId) 1 (trk v2.posTrackId).tpcNSigmaPi &&
  isSelectedV0Daughter cfg (trk v2.negTrackId) (-1) (trk v2.negTrackId).tpcNSigmaPi

/-- All guards of the same-event pair loop of processSE, in source order:
the pre-bookkeeping guards, the global-index ordering guard, the
shared-positive-track and shared-negative-track guards and the
angular-separation guard. -/
def pairPasses (cfg : ResoCfg) (trk : ℤ → Track) (v1 v2 : V0Cand) : Bool :=
  prePairPasses cfg trk v1 v2 &&
  decide (v1.globalIndex < v2.globalIndex) &&
  decide (v1.posTrackId ≠ v2.posTrackId) &&
  decide (v1.negTrackId ≠ v2.negTrackId) &&
  applyAngSep cfg v1 v2

/-- Same-event combination of processSE: the full index cross product of the
candidate collection with itself, filtered by the pair guards.  These are
the pairs for which the loop body reaches the invariant-mass computation. -/
def sePairs (cfg : ResoCfg) (trk : ℤ → Track) (v0s : List V0Cand) :
    List (V0Cand × V0Cand) :=
  (v0s.product v0s).filter fun p => pairPasses cfg trk p.1 p.2

/-- The v0indexes list of processSE: global indexes of first-slot candidates
that reach the bookkeeping point, deduplicated in arrival order exactly as
the std find and push_back sequence does. -/
def v0indexesSE (cfg : ResoCfg) (trk : ℤ → Track) (v0s : List V0Cand) :
    List ℤ :=
  (v0s.product v0s).foldl
    (fun acc p =>
      if prePairPasses cfg trk p.1 p.2 && !(decide (p.1.globalIndex ∈ acc)) then
        acc ++ [p.1.globalIndex]
      else acc)
    []

/-- Pairs for which processSE records observables by calling fillInvMass.
When selectTWOKsOnly is off, every pair passing all guards is recorded in
loop order.  When it is on, a single fill happens after the loop with the
globals left by the last fully passing pair, provided exactly two distinct
first-slot candidates were counted and some pair fully passed. -/
def recordedPairsSE (cfg : ResoCfg) (trk : ℤ → Track) (v0s : List V0Cand) :
    List (V0Cand × V0Cand) :=
  if cfg.selectTWOKsOnly then
    if (v0indexesSE cfg trk v0s).length = 2 then
      match (sePairs cfg trk v0s).getLast? with
      | some p => [p]
      | none => []
    else []
  else sePairs cfg trk v0s

/-- Guards of the mixed-event pair loop of processMEderived, in source
order: nonzero table sizes, selectionV0 on both candidates, the
shared-positive-track and shared-negative-track guards and
isSelectedV0Daughter on all four daughter tracks. -/
def mePairPasses (cfg : ResoCfg) (trk : ℤ → Track) (t1 t2 : V0Cand) : Bool :=
  decide (t1.size ≠ 0) && decide (t2.size ≠ 0) &&
  selectionV0 cfg t1 && selectionV0 cfg t2 &&
  decide (t1.posTrackId ≠ t2.posTrackId) &&
  decide (t1.negTrackId ≠ t2.negTrackId) &&
  isSelectedV0Daughter cfg (trk t1.posTrackId) 1 (trk t1.posTrackId).tpcNSigmaPi &&
  isSelectedV0Daughter cfg (trk t2.posTrackId) 1 (trk t2.posTrackId).tpcNSigmaPi &&
  isSelectedV0Daughter cfg (trk t1.negTrackId) (-1) (trk t1.negTrackId).tpcNSigmaPi &&
  isSelectedV0Daughter cfg (trk t2.negTrackId) (-1) (trk t2.negTrackId).tpcNSigmaPi

/-- Mixed-event combination of processMEderived for one pair of partner
events: the cross product of the two sliced candidate groups filtered by
the mixed-event pair guards.  Every passing pair is recorded via
fillInvMass with isMix set. -/
def mePairs (cfg : ResoCfg) (trk : ℤ → Track) (g1 g2 : List V0Cand) :
    List (V0Cand × V0Cand) :=
  (g1.product g2).filter fun p => mePairPasses cfg trk p.1 p.2

/-- Number of occurrences of a candidate pair in a list of pairs. -/
def countPair (l : List (V0Cand × V0Cand)) (p : V0Cand × V0Cand) : ℕ :=
  (l.filter fun q => decide (q = p)).length

/-- Two candidates share a constituent daughter track when any of the four
track-id comparisons coincide. -/
def sharesDaughterTrack (v1 v2 : V0Cand) : Bool :=
  decide (v1.posTrackId = v2.posTrackId) ||
  decide (v1.negTrackId = v2.negTrackId) ||
  decide (v1.posTrackId = v2.negTrackId) ||
  decide (v1.negTrackId = v2.posTrackId)

/-- Startup check of init: the THnSparse activation flags are accumulated as
integers and a zero sum is fatal. -/
def initThnCheckFatal (h p b r : Bool) : Bool :=
  decide ((if h then (1 : ℤ) else 0) + (if p then 1 else 0) +
    (if b then 1 else 0) + (if r then 1 else 0) = 0)

/-! Embedding of the D0 barrel candidate selector. -/

/-- Physics constant MassD0 used by the invariant-mass windows (GeV). -/
def massD0 : ℚ := 1.86484

/-- One row of the per-pT-bin cut table of the D0 selector, with one field
per labelled cut variable. -/
structure D0CutRow where
  d0d0 : ℚ
  cosPointingAngle : ℚ
  cosPointingAngleXY : ℚ
  normDecLenXY : ℚ
  minDecLen : ℚ
  decLen : ℚ
  decLenXY : ℚ
  mWin : ℚ
  ptPi : ℚ
  ptK : ℚ
  d0pi : ℚ
  d0K : ℚ
  cosThetaStarCut : ℚ

/-- Selector configuration: the pT bin edges, the cut table indexed by bin,
and the candidate pT analysis range. -/
structure D0SelCfg where
  binsPt : List ℚ
  cuts : ℕ → D0CutRow
  ptCandMin : ℚ
  ptCandMax : ℚ

/-- Two-prong candidate row: the geometric quantities read by the
topological selections, together with the helper-computed invariant masses
and decay angles under the two conjugate hypotheses. -/
structure HfCand2Prong where
  pt : ℚ
  p : ℚ
  impactParameterProduct : ℚ
  cpa : ℚ
  cpaXY : ℚ
  decayLengthXYNormalised : ℚ
  impactParameterNormalised0 : ℚ
  impactParameterNormalised1 : ℚ
  decayLength : ℚ
  decayLengthXY : ℚ
  decayLengthNormalised : ℚ
  invMassD0ToPiK : ℚ
  invMassD0barToKPi : ℚ
  cosThetaStarD0 : ℚ
  cosThetaStarD0bar : ℚ

/-- Prong track row of the D0 selector: charge sign, transverse momentum
and transverse impact parameter. -/
structure D0Track where
  sign : ℤ
  pt : ℚ
  dcaXY : ℚ

/-- Modelled from the spec: the pT bin lookup helper findBin, defined in
the repository outside the provided sources and only called here, is a
monotonic bin-edge lookup returning the no-bin sentinel -1 when the value
falls outside the configured edges, and otherwise the index of the
half-open bin containing the value. -/
def findBin (bins : List ℚ) (value : ℚ) : ℤ :=
  let k := (bins.takeWhile fun e => decide (e ≤ value)).length
  if k = 0 ∨ k = bins.length then -1 else (k : ℤ) - 1

/-- Embedding of selectionTopol: conjugate-independent topological cuts.
The early returns are rendered as the conjunction of the negated rejection
guards after the bin lookup, in source order.  The final check on the
normalised decay length is disabled in the source (its return statement is
commented out) and therefore is not part of the embedding. -/
def selectionTopol (sel : D0SelCfg) (c : HfCand2Prong) : Bool :=
  let pTBin := findBin sel.binsPt c.pt
  if pTBin = -1 then false
  else
    let row := sel.cuts pTBin.toNat
    decide (c.pt ≥ sel.ptCandMin) && decide (c.pt < sel.ptCandMax) &&
    decide (c.impactParameterProduct ≤ row.d0d0) &&
    decide (c.cpa ≥ row.cosPointingAngle) &&
    decide (c.cpaXY ≥ row.cosPointingAngleXY) &&
    decide (c.decayLengthXYNormalised ≥ row.normDecLenXY) &&
    decide (|c.impactParameterNormalised0| ≥ 0.5) &&
    decide (|c.impactParameterNormalised1| ≥ 0.5) &&
    (let decayLengthCut := min (c.p * 0.0066 + 0.01) row.minDecLen
     decide (c.decayLength * c.decayLength ≥ decayLengthCut * decayLengthCut)) &&
    decide (c.decayLength ≤ row.decLen) &&
    decide (c.decayLengthXY ≤ row.decLenXY)

/-- Embedding of selectionTopolConjugate: conjugate-dependent cuts, with the
pion-sign branches of the source preserved. -/
def selectionTopolConjugate (sel : D0SelCfg) (c : HfCand2Prong)
    (trackPion trackKaon : D0Track) : Bool :=
  let pTBin := findBin sel.binsPt c.pt
  if pTBin = -1 then false
  else
    let row := sel.cuts pTBin.toNat
    (if trackPion.sign > 0 then decide (|c.invMassD0ToPiK - massD0| ≤ row.mWin)
     else decide (|c.invMassD0barToKPi - massD0| ≤ row.mWin)) &&
    decide (trackPion.pt ≥ row.ptPi) && decide (trackKaon.pt ≥ row.ptK) &&
    decide (|trackPion.dcaXY| ≤ row.d0pi) && decide (|trackKaon.dcaXY| ≤ row.d0K) &&
    (if trackPion.sign > 0 then decide (|c.cosThetaStarD0| ≤ row.cosThetaStarCut)
     else decide (|c.cosThetaStarD0bar| ≤ row.cosThetaStarCut))

/-! Concrete rational-valued inputs used to evaluate the embedded
selection and combination logic on explicit data. -/

/-- Concrete resonance-task configuration with the default cut values,
beam-axis policy active, one rotational draw, and the two-Ks-only event
selection off. -/
def cfgW : ResoCfg :=
  ⟨false, 1, 0.5, 0, 1, 0.97, 0.5, 200, 15, false, 0.005, 4, 0.005,
   false, false, 70, 0.8, 70, 0.8, 5, false, 0.01, false,
   false, false, true, false, 1, 10⟩

/-- Concrete positive daughter track passing all daughter cuts. -/
def posTrackW : Track :=
  ⟨1, 0, true, true, 100, 100, 1, 0⟩

/-- Concrete negative daughter track passing all daughter cuts. -/
def negTrackW : Track :=
  ⟨-1, 0, true, true, 100, 100, 1, 0⟩

/-- Concrete track store: odd global indexes resolve to the positive
track, even ones to the negative track. -/
def trkW : ℤ → Track :=
  fun id => if id % 2 = 0 then negTrackW else posTrackW

/-- Concrete V0 candidate A passing all single-candidate cuts, with
daughter track ids 1 and 2. -/
def candA : V0Cand :=
  ⟨1, 10, 1, 2, 1, 0, 0, 1, 0, 0, 1, 0, 1, 0, 0, 0.497, 2, 2, 0⟩

/-- Concrete V0 candidate B passing all single-candidate cuts, with
daughter track ids 3 and 4. -/
def candB : V0Cand :=
  ⟨1, 11, 3, 4, -1, 0, 0, 1, 0, 0, 1, 0, 1, 0, 0, 0.497, 2, 2, 0⟩

/-- Concrete two-candidate event. -/
def v0sW : List V0Cand :=
  [candA, candB]

/-- Concrete D0 cut row. -/
def d0RowW : D0CutRow :=
  ⟨0, 0, 0, 0, 0, 0, 0, 0, 0, 0, 0, 0, 0⟩

/-- Concrete D0 selector configuration with bin edges at 1 and 2. -/
def d0SelW : D0SelCfg :=
  ⟨[1, 2], fun _ => d0RowW, 0, 50⟩

/-- Concrete two-prong candidate whose pT of one half lies below the lowest
bin edge. -/
def d0CandW : HfCand2Prong :=
  ⟨1/2, 0, 0, 0, 0, 0, 0, 0, 0, 0, 0, 0, 0, 0, 0⟩

/-- Concrete prong track for the conjugate selection. -/
def d0TrackW : D0Track :=
  ⟨1, 0, 0⟩

/-! Embedding of the four-vector arithmetic, boosts and angular observables
of fillInvMass, over the real numbers. -/

noncomputable section

/-- Three-component spatial vector. -/
structure Vec3 where
  x : ℝ
  y : ℝ
  z : ℝ

/-- Four-vector in the (px, py, pz, M) representation used for the
daughter candidates. -/
structure PxPyPzM where
  px : ℝ
  py : ℝ
  pz : ℝ
  m : ℝ

/-- Four-vector in the (px, py, pz, E) representation used for sums and
boosted vectors. -/
structure PxPyPzE where
  px : ℝ
  py : ℝ
  pz : ℝ
  en : ℝ

/-- Energy of a mass-representation four-vector. -/
def energy (v : PxPyPzM) : ℝ :=
  Real.sqrt (v.px ^ 2 + v.py ^ 2 + v.pz ^ 2 + v.m ^ 2)

/-- Conversion of a mass-representation four-vector to the energy
representation. -/
def toE (v : PxPyPzM) : PxPyPzE :=
  ⟨v.px, v.py, v.pz, energy v⟩

/-- Sum of two mass-representation four-vectors: components and energies
add, as in the vector addition used to build the mother. -/
def addM (a b : PxPyPzM) : PxPyPzE :=
  ⟨a.px + b.px, a.py + b.py, a.pz + b.pz, energy a + energy b⟩

/-- Transverse momentum of a four-vector. -/
def ptE (v : PxPyPzE) : ℝ :=
  Real.sqrt (v.px ^ 2 + v.py ^ 2)

/-- Squared invariant mass of a four-vector. -/
def massSq (v : PxPyPzE) : ℝ :=
  v.en ^ 2 - (v.px ^ 2 + v.py ^ 2 + v.pz ^ 2)

/-- Invariant mass getter, with the sign-preserving convention of the
library getter for spacelike arguments. -/
def massE (v : PxPyPzE) : ℝ :=
  if massSq v < 0 then -Real.sqrt (-massSq v) else Real.sqrt (massSq v)

/-- Rapidity getter: half the log of the ratio of energy plus and minus the
longitudinal momentum. -/
def rapidity (v : PxPyPzE) : ℝ :=
  Real.log ((v.en + v.pz) / (v.en - v.pz)) / 2

/-- Spatial part of a four-vector. -/
def vecOf (v : PxPyPzE) : Vec3 :=
  ⟨v.px, v.py, v.pz⟩

/-- Dot product of spatial vectors. -/
def dot3 (a b : Vec3) : ℝ :=
  a.x * b.x + a.y * b.y + a.z * b.z

/-- Cross product of spatial vectors. -/
def cross3 (a b : Vec3) : Vec3 :=
  ⟨a.y * b.z - a.z * b.y, a.z * b.x - a.x * b.z, a.x * b.y - a.y * b.x⟩

/-- Squared magnitude of a spatial vector. -/
def mag2 (a : Vec3) : ℝ :=
  dot3 a a

/-- Unit vector: componentwise division by the magnitude (division by a zero
magnitude yields the zero vector, matching the guarded library getter on
the zero vector). -/
def unit3 (a : Vec3) : Vec3 :=
  ⟨a.x / Real.sqrt (mag2 a), a.y / Real.sqrt (mag2 a), a.z / Real.sqrt (mag2 a)⟩

/-- Lorentz boost with velocity vector b applied to a four-vector, following
the library transformation: gamma from the squared speed, with the
longitudinal correction coefficient zero for a vanishing boost. -/
def boost (b : Vec3) (v : PxPyPzE) : PxPyPzE :=
  let b2 := mag2 b
  let gam := 1 / Real.sqrt (1 - b2)
  let bp := b.x * v.px + b.y * v.py + b.z * v.pz
  let gam2 := if 0 < b2 then (gam - 1) / b2 else 0
  ⟨v.px + (gam2 * bp + gam * v.en) * b.x,
   v.py + (gam2 * bp + gam * v.en) * b.y,
   v.pz + (gam2 * bp + gam * v.en) * b.z,
   gam * (v.en + bp)⟩

/-- Boost-to-centre-of-mass velocity of a four-vector: minus its spatial
part over its energy. -/
def boostToCM (v : PxPyPzE) : Vec3 :=
  ⟨-v.px / v.en, -v.py / v.en, -v.pz / v.en⟩

/-- Beam momentum constant of the task,
sqrt of 13600 squared over 4 minus 0.938 squared, in GeV. -/
def beamMomentum : ℝ :=
  Real.sqrt (13600 ^ 2 / 4 - 0.938 ^ 2)

/-- Beam 1 four-vector, along minus z. -/
def beam1 : PxPyPzE :=
  ⟨0, 0, -beamMomentum, 13600 / 2⟩

/-- Beam 2 four-vector, along plus z. -/
def beam2 : PxPyPzE :=
  ⟨0, 0, beamMomentum, 13600 / 2⟩

/-- Two-argument arctangent with the C library conventions on the axes,
with values in the interval from minus pi exclusive to pi inclusive. -/
def atan2 (yv xv : ℝ) : ℝ :=
  if 0 < xv then Real.arctan (yv / xv)
  else if xv < 0 then
    (if 0 ≤ yv then Real.arctan (yv / xv) + Real.pi
     else Real.arctan (yv / xv) - Real.pi)
  else
    (if 0 < yv then Real.pi / 2 else if yv < 0 then -(Real.pi / 2) else 0)

/-- Azimuthal angle computed by fillInvMass: the two-argument arctangent of
the two in-plane projections, shifted by two pi once when negative. -/
def anglePhiOf (yv xv : ℝ) : ℝ :=
  if atan2 yv xv < 0 then atan2 yv xv + 2 * Real.pi else atan2 yv xv

/-- Uniform draw on an interval, parametrized by a unit-interval sample u:
the value a plus u times the width. -/
def uniformDraw (a b u : ℝ) : ℝ :=
  a + u * (b - a)

/-- Rotation angle draw of the rotational background: uniform between pi
minus pi over the rotational cut and pi plus pi over the rotational cut. -/
def theta2draw (cut u : ℝ) : ℝ :=
  uniformDraw (Real.pi - Real.pi / cut) (Real.pi + Real.pi / cut) u

/-- Rotation of the transverse momentum of a daughter by an angle, keeping
its longitudinal momentum and mass. -/
def rotDaughter (d : PxPyPzM) (t : ℝ) : PxPyPzM :=
  ⟨d.px * Real.cos t - d.py * Real.sin t,
   d.px * Real.sin t + d.py * Real.cos t, d.pz, d.m⟩

/-- Rotated mother of the helicity branch: the rotated first daughter summed
with the second daughter. -/
def motherRotHel (d1 d2 : PxPyPzM) (t : ℝ) : PxPyPzE :=
  addM (rotDaughter d1 t) d2

/-- Rotated mother of the production, beam and random branches: the mother
transverse momentum rotated by the angle, with its longitudinal momentum
and its mass getter value, rebuilt in the mass representation. -/
def motherRotM (mother : PxPyPzE) (t : ℝ) : PxPyPzM :=
  ⟨mother.px * Real.cos t - mother.py * Real.sin t,
   mother.px * Real.sin t + mother.py * Real.cos t, mother.pz, massE mother⟩

/-- Cosine observable of the rotated pair in the helicity branch: the
rotated daughter is boosted to the rotated mother rest frame and the angle
is taken against the rotated mother direction. -/
def cosThetaHelRot (d1 d2 : PxPyPzM) (t : ℝ) : ℝ :=
  let dR := toE (rotDaughter d1 t)
  let mR := motherRotHel d1 d2 t
  let dRCM := boost (boostToCM mR) dR
  dot3 (vecOf mR) (vecOf dRCM) /
    (Real.sqrt (mag2 (vecOf dRCM)) * Real.sqrt (mag2 (vecOf mR)))

/-- Identifier of the histogram receiving a fill. -/
inductive HistId
  | DS
  | ME
  | Rot
  deriving DecidableEq

/-- One histogram fill of fillInvMass: target histogram and the filled
multiplicity, transverse momentum, mass, cosine observable and azimuthal
angle. -/
structure FillRecord where
  hist : HistId
  mult : ℝ
  ptv : ℝ
  massv : ℝ
  cosv : ℝ
  phiv : ℝ

/-- Rotation angle of the i-th rotational-background draw. -/
def rotAngle (cfg : ResoCfg) (rotU : ℕ → ℝ) (i : ℕ) : ℝ :=
  theta2draw (cfg.rotationalCut : ℝ) (rotU i)

/-- Fill record produced by the i-th rotational draw in the helicity
branch. -/
def helRotRec (cfg : ResoCfg) (mult : ℝ) (d1 d2 : PxPyPzM) (anglePhi : ℝ)
    (rotU : ℕ → ℝ) (i : ℕ) : FillRecord :=
  ⟨HistId.Rot, mult, ptE (motherRotHel d1 d2 (rotAngle cfg rotU i)),
   massE (motherRotHel d1 d2 (rotAngle cfg rotU i)),
   cosThetaHelRot d1 d2 (rotAngle cfg rotU i), anglePhi⟩

/-- Fill record produced by the i-th rotational draw in the production,
beam and random branches. -/
def stdRotRec (cfg : ResoCfg) (mult : ℝ) (mother : PxPyPzE)
    (cosT anglePhi : ℝ) (rotU : ℕ → ℝ) (i : ℕ) : FillRecord :=
  ⟨HistId.Rot, mult, ptE (toE (motherRotM mother (rotAngle cfg rotU i))),
   (motherRotM mother (rotAngle cfg rotU i)).m, cosT, anglePhi⟩

/-- Rotational-background fills of the helicity branch: for each draw the
rotated mother is built from the rotated first daughter, and the fill is
gated by the signed rapidity of the rotated mother being below one half. -/
def rotEntriesHel (cfg : ResoCfg) (mult : ℝ) (d1 d2 : PxPyPzM)
    (anglePhi : ℝ) (rotU : ℕ → ℝ) : List FillRecord :=
  (List.range cfg.cRotations).filterMap fun i =>
    if rapidity (motherRotHel d1 d2 (rotAngle cfg rotU i)) < 1 / 2 then
      some (helRotRec cfg mult d1 d2 anglePhi rotU i)
    else none

/-- Rotational-background fills of the production, beam and random
branches: for each draw the mother itself is rotated and the fill is gated
by the absolute rapidity of the rotated mother being below one half; the
cosine observable of the unrotated pair is filled. -/
def rotEntriesStd (cfg : ResoCfg) (mult : ℝ) (mother : PxPyPzE)
    (cosT anglePhi : ℝ) (rotU : ℕ → ℝ) : List FillRecord :=
  (List.range cfg.cRotations).filterMap fun i =>
    if |rapidity (toE (motherRotM mother (rotAngle cfg rotU i)))| < 1 / 2 then
      some (stdRotRec cfg mult mother cosT anglePhi rotU i)
    else none

/-- Branch body shared by the production, beam and random policies: the
same-event fill gated by the absolute mother rapidity, followed by the
rotational fills, or the mixed-event fill gated by the absolute mother
rapidity. -/
def stdBranch (cfg : ResoCfg) (mother : PxPyPzE) (mult : ℝ)
    (cosT anglePhi : ℝ) (isMix : Bool) (rotU : ℕ → ℝ) : List FillRecord :=
  if !isMix then
    (if |rapidity mother| < 1 / 2 then
      [⟨HistId.DS, mult, ptE mother, massE mother, cosT, anglePhi⟩]
     else []) ++ rotEntriesStd cfg mult mother cosT anglePhi rotU
  else
    if |rapidity mother| < 1 / 2 then
      [⟨HistId.ME, mult, ptE mother, massE mother, cosT, anglePhi⟩]
    else []

/-- Embedding of fillInvMass: the boost of the first daughter to the mother
rest frame, the beam-based azimuthal frame, and the four reference-axis
policy branches in their else-if priority order.  The random draws of the
rotational background and of the random axis are passed explicitly. -/
def fillInvMass (cfg : ResoCfg) (mother : PxPyPzE) (mult : ℝ)
    (d1 d2 : PxPyPzM) (isMix : Bool) (rotU : ℕ → ℝ)
    (phiRandom thetaRandom : ℝ) : List FillRecord :=
  let boostCM := boostToCM mother
  let fourVecDauCM := boost boostCM (toE d1)
  let beam1CM := unit3 (vecOf (boost boostCM beam1))
  let beam2CM := unit3 (vecOf (boost boostCM beam2))
  let v1CM := unit3 (vecOf (boost boostCM (toE d1)))
  let zaxisHE := unit3 (vecOf mother)
  let yaxisHE := unit3 (cross3 beam1CM beam2CM)
  let xaxisHE := unit3 (cross3 yaxisHE zaxisHE)
  let anglePhi := anglePhiOf (dot3 yaxisHE v1CM) (dot3 xaxisHE v1CM)
  if cfg.activateTHnSparseCosThStarHelicity then
    let cosT := dot3 (vecOf mother) (vecOf fourVecDauCM) /
      (Real.sqrt (mag2 (vecOf fourVecDauCM)) * Real.sqrt (mag2 (vecOf mother)))
    if !isMix then
      (if |rapidity mother| < 1 / 2 then
        [⟨HistId.DS, mult, ptE mother, massE mother, cosT, anglePhi⟩]
       else []) ++ rotEntriesHel cfg mult d1 d2 anglePhi rotU
    else
      if |rapidity mother| < 1 / 2 then
        [⟨HistId.ME, mult, ptE mother, massE mother, cosT, anglePhi⟩]
      else []
  else if cfg.activateTHnSparseCosThStarProduction then
    let normalVec := Vec3.mk mother.py (-mother.px) 0
    let cosT := dot3 normalVec (vecOf fourVecDauCM) /
      (Real.sqrt (mag2 (vecOf fourVecDauCM)) * Real.sqrt (mag2 normalVec))
    stdBranch cfg mother mult cosT anglePhi isMix rotU
  else if cfg.activateTHnSparseCosThStarBeam then
    let beamVec := Vec3.mk 0 0 1
    let cosT := dot3 beamVec (vecOf fourVecDauCM) /
      Real.sqrt (mag2 (vecOf fourVecDauCM))
    stdBranch cfg mother mult cosT anglePhi isMix rotU
  else if cfg.activateTHnSparseCosThStarRandom then
    let randomVec := Vec3.mk (Real.sin thetaRandom * Real.cos phiRandom)
      (Real.sin thetaRandom * Real.sin phiRandom) (Real.cos thetaRandom)
    let cosT := dot3 randomVec (vecOf fourVecDauCM) /
      Real.sqrt (mag2 (vecOf fourVecDauCM))
    stdBranch cfg mother mult cosT anglePhi isMix rotU
  else []

/-! Concrete real-valued inputs used to evaluate the four-vector logic. -/

/-- Daughter with transverse momentum (1, 0, 0) GeV under the 0.4976 GeV
mass hypothesis. -/
def dau1Ex : PxPyPzM :=
  ⟨1, 0, 0, 0.4976⟩

/-- Daughter with transverse momentum (-1, 0, 0) GeV under the 0.4976 GeV
mass hypothesis. -/
def dau2Ex : PxPyPzM :=
  ⟨-1, 0, 0, 0.4976⟩

/-- Composite of the two back-to-back daughters. -/
def motherEx : PxPyPzE :=
  addM dau1Ex dau2Ex

/-- Constant unit-interval draw of one half for every rotational-background
sample. -/
def rotUW : ℕ → ℝ :=
  fun _ => 1 / 2

end

/-! Theorems. -/

theorem getLast_eq_some_mem {α : Type _} {l : List α} {a : α}
    (h : l.getLast? = some a) : a ∈ l := by
  induction l with
  | nil => simp at h
  | cons x xs ih =>
    cases xs with
    | nil =>
      simp [List.getLast?] at h
      simp [h]
    | cons y ys =>
      rw [List.getLast?_cons_cons] at h
      exact List.mem_cons_of_mem _ (ih h)

theorem countPair_eq_zero_of_not_mem :
    ∀ {l : List (V0Cand × V0Cand)} {p : V0Cand × V0Cand},
      p ∉ l → countPair l p = 0 := by
  intro l
  induction l with
  | nil => intro p _; rfl
  | cons x xs ih =>
    intro p hp
    have hx : ¬x = p := fun he => hp (he ▸ List.mem_cons_self x xs)
    have hxs : p ∉ xs := fun hm => hp (List.mem_cons_of_mem _ hm)
    simpa [countPair, List.filter_cons, hx] using ih hxs

theorem countPair_eq_one_of_nodup :
    ∀ {l : List (V0Cand × V0Cand)} {p : V0Cand × V0Cand},
      l.Nodup → p ∈ l → countPair l p = 1 := by
  intro l
  induction l with
  | nil => intro p _ hm; cases hm
  | cons x xs ih =>
    intro p hn hm
    have hx : x ∉ xs := (List.nodup_cons.mp hn).1
    have hxs : xs.Nodup := (List.nodup_cons.mp hn).2
    rcases List.mem_cons.mp hm with he | hm2
    · have hnot : p ∉ xs := fun hmem => hx (he ▸ hmem)
      have hz := countPair_eq_zero_of_not_mem hnot
      simp only [countPair, List.filter_cons] at hz ⊢
      have hxp : x = p := he.symm
      simp [hxp, hz]
    · have hne : ¬x = p := fun he2 => hx (he2 ▸ hm2)
      simpa [countPair, List.filter_cons, hne] using ih hxs hm2

theorem pairPasses_facts (cfg : ResoCfg) (trk : ℤ → Track) (v1 v2 : V0Cand)
    (h : pairPasses cfg trk v1 v2 = true) :
    prePairPasses cfg trk v1 v2 = true ∧ v1.globalIndex < v2.globalIndex ∧
    v1.posTrackId ≠ v2.posTrackId ∧ v1.negTrackId ≠ v2.negTrackId := by
  simp only [pairPasses, Bool.and_eq_true, decide_eq_true_eq] at h
  tauto

theorem prePairPasses_daughters (cfg : ResoCfg) (trk : ℤ → Track)
    (v1 v2 : V0Cand) (h : prePairPasses cfg trk v1 v2 = true) :
    isSelectedV0Daughter cfg (trk v1.negTrackId) (-1)
      (trk v1.negTrackId).tpcNSigmaPi = true ∧
    isSelectedV0Daughter cfg (trk v1.posTrackId) 1
      (trk v1.posTrackId).tpcNSigmaPi = true ∧
    isSelectedV0Daughter cfg (trk v2.posTrackId) 1
      (trk v2.posTrackId).tpcNSigmaPi = true ∧
    isSelectedV0Daughter cfg (trk v2.negTrackId) (-1)
      (trk v2.negTrackId).tpcNSigmaPi = true := by
  simp only [prePairPasses, Bool.and_eq_true] at h
  tauto

theorem mePairPasses_facts (cfg : ResoCfg) (trk : ℤ → Track) (t1 t2 : V0Cand)
    (h : mePairPasses cfg trk t1 t2 = true) :
    t1.posTrackId ≠ t2.posTrackId ∧ t1.negTrackId ≠ t2.negTrackId ∧
    isSelectedV0Daughter cfg (trk t1.posTrackId) 1
      (trk t1.posTrackId).tpcNSigmaPi = true ∧
    isSelectedV0Daughter cfg (trk t2.posTrackId) 1
      (trk t2.posTrackId).tpcNSigmaPi = true ∧
    isSelectedV0Daughter cfg (trk t1.negTrackId) (-1)
      (trk t1.negTrackId).tpcNSigmaPi = true ∧
    isSelectedV0Daughter cfg (trk t2.negTrackId) (-1)
      (trk t2.negTrackId).tpcNSigmaPi = true := by
  simp only [mePairPasses, Bool.and_eq_true, decide_eq_true_eq] at h
  tauto

theorem posSel_sign_nonneg (cfg : ResoCfg) (t : Track) (ns : ℚ)
    (h : isSelectedV0Daughter cfg t 1 ns = true) : 0 ≤ t.sign := by
  have hD : (!(decide ((1 : ℚ) > 0) && decide (t.sign < 0))) = true := by
    simp only [isSelectedV0Daughter, Bool.and_eq_true] at h
    tauto
  simp only [Bool.not_eq_true', Bool.and_eq_false_iff,
    decide_eq_false_iff_not] at hD
  rcases hD with h1 | h2
  · exact absurd (by norm_num : (1 : ℚ) > 0) h1
  · exact not_lt.mp h2

theorem negSel_sign_nonpos (cfg : ResoCfg) (t : Track) (ns : ℚ)
    (h : isSelectedV0Daughter cfg t (-1) ns = true) : t.sign ≤ 0 := by
  have hC : (!(decide ((-1 : ℚ) < 0) && decide (t.sign > 0))) = true := by
    simp only [isSelectedV0Daughter, Bool.and_eq_true] at h
    tauto
  simp only [Bool.not_eq_true', Bool.and_eq_false_iff,
    decide_eq_false_iff_not] at hC
  rcases hC with h1 | h2
  · exact absurd (by norm_num : (-1 : ℚ) < 0) h1
  · exact not_lt.mp h2

theorem noSharedTrack_of_guards (cfg : ResoCfg) (trk : ℤ → Track)
    (hsign : ∀ id, (trk id).sign ≠ 0) (v1 v2 : V0Cand)
    (hpos : v1.posTrackId ≠ v2.posTrackId)
    (hneg : v1.negTrackId ≠ v2.negTrackId)
    (hp1 : isSelectedV0Daughter cfg (trk v1.posTrackId) 1
      (trk v1.posTrackId).tpcNSigmaPi = true)
    (hn1 : isSelectedV0Daughter cfg (trk v1.negTrackId) (-1)
      (trk v1.negTrackId).tpcNSigmaPi = true)
    (hp2 : isSelectedV0Daughter cfg (trk v2.posTrackId) 1
      (trk v2.posTrackId).tpcNSigmaPi = true)
    (hn2 : isSelectedV0Daughter cfg (trk v2.negTrackId) (-1)
      (trk v2.negTrackId).tpcNSigmaPi = true) :
    sharesDaughterTrack v1 v2 = false := by
  have hx1 : v1.posTrackId ≠ v2.negTrackId := by
    intro he
    have hs1 : 0 ≤ (trk v1.posTrackId).sign := posSel_sign_nonneg _ _ _ hp1
    have hs2 : (trk v2.negTrackId).sign ≤ 0 := negSel_sign_nonpos _ _ _ hn2
    rw [he] at hs1
    exact hsign v2.negTrackId (le_antisymm hs2 hs1)
  have hx2 : v1.negTrackId ≠ v2.posTrackId := by
    intro he
    have hs1 : (trk v1.negTrackId).sign ≤ 0 := negSel_sign_nonpos _ _ _ hn1
    have hs2 : 0 ≤ (trk v2.posTrackId).sign := posSel_sign_nonneg _ _ _ hp2
    rw [he] at hs1
    exact hsign v2.posTrackId (le_antisymm hs1 hs2)
  simp [sharesDaughterTrack, hpos, hneg, hx1, hx2]

theorem mem_sePairs_passes {cfg : ResoCfg} {trk : ℤ → Track}
    {v0s : List V0Cand} {p : V0Cand × V0Cand}
    (h : p ∈ sePairs cfg trk v0s) : pairPasses cfg trk p.1 p.2 = true :=
  (List.mem_filter.mp h).2

theorem mem_recordedSE_passes {cfg : ResoCfg} {trk : ℤ → Track}
    {v0s : List V0Cand} {p : V0Cand × V0Cand}
    (h : p ∈ recordedPairsSE cfg trk v0s) :
    pairPasses cfg trk p.1 p.2 = true := by
  unfold recordedPairsSE at h
  by_cases hK : cfg.selectTWOKsOnly
  · rw [if_pos hK] at h
    by_cases hlen : (v0indexesSE cfg trk v0s).length = 2
    · rw [if_pos hlen] at h
      cases hlast : (sePairs cfg trk v0s).getLast? with
      | none =>
        rw [hlast] at h
        simp at h
      | some q =>
        rw [hlast] at h
        simp at h
        subst h
        exact mem_sePairs_passes (getLast_eq_some_mem hlast)
    · rw [if_neg hlen] at h
      simp at h
  · rw [if_neg hK] at h
    exact mem_sePairs_passes h

theorem mem_mePairs_passes {cfg : ResoCfg} {trk : ℤ → Track}
    {g1 g2 : List V0Cand} {p : V0Cand × V0Cand}
    (h : p ∈ mePairs cfg trk g1 g2) : mePairPasses cfg trk p.1 p.2 = true :=
  (List.mem_filter.mp h).2

/-- C1: every pair recorded by the same-event combination or by the
mixed-event combination has disjoint constituent daughter tracks: sharing a
positive daughter, a negative daughter, or a daughter across roles (which
would force a track of zero charge sign) is excluded before any observable
is recorded. -/
theorem c1_shared_track_excluded (cfg : ResoCfg) (trk : ℤ → Track)
    (v0s g1 g2 : List V0Cand) (p : V0Cand × V0Cand)
    (hsign : ∀ id, (trk id).sign ≠ 0)
    (hp : p ∈ recordedPairsSE cfg trk v0s ∨ p ∈ mePairs cfg trk g1 g2) :
    sharesDaughterTrack p.1 p.2 = false := by
  rcases hp with hse | hme
  · have hpass := mem_recordedSE_passes hse
    obtain ⟨hpre, hgi, hposne, hnegne⟩ := pairPasses_facts _ _ _ _ hpass
    obtain ⟨hn1, hp1, hp2, hn2⟩ := prePairPasses_daughters _ _ _ _ hpre
    exact noSharedTrack_of_guards cfg trk hsign p.1 p.2 hposne hnegne
      hp1 hn1 hp2 hn2
  · have hpass := mem_mePairs_passes hme
    obtain ⟨hposne, hnegne, hp1, hp2, hn1, hn2⟩ :=
      mePairPasses_facts _ _ _ _ hpass
    exact noSharedTrack_of_guards cfg trk hsign p.1 p.2 hposne hnegne
      hp1 hn1 hp2 hn2

theorem c1_shared_track_excluded_witness :
    sharesDaughterTrack candA candB = false :=
  c1_shared_track_excluded cfgW trkW v0sW [] [] (candA, candB)
    (fun id => by
      simp only [trkW]
      split <;> decide)
    (Or.inl (by
      norm_num [recordedPairsSE, sePairs, v0sW, List.product, pairPasses,
        prePairPasses, selectionV0, isSelectedV0Daughter, applyAngSep, sqrtGT,
        cfgW, candA, candB, trkW, posTrackW, negTrackW, massK0Short,
        massLambda0]))

/-- C2: the same-event combination produces each unordered pair of distinct
accepted candidates exactly once, only in the orientation with increasing
global index, never in the reversed orientation, and never as a self
pair. -/
theorem c2_unordered_pair_once (cfg : ResoCfg) (trk : ℤ → Track)
    (v0s : List V0Cand) (A B : V0Cand)
    (hnd : (v0s.map V0Cand.globalIndex).Nodup)
    (hA : A ∈ v0s) (hB : B ∈ v0s)
    (hlt : A.globalIndex < B.globalIndex)
    (hpass : pairPasses cfg trk A B = true) :
    countPair (sePairs cfg trk v0s) (A, B) = 1 ∧
    countPair (sePairs cfg trk v0s) (B, A) = 0 ∧
    (∀ p ∈ sePairs cfg trk v0s, p.1.globalIndex < p.2.globalIndex) ∧
    (∀ C : V0Cand, (C, C) ∉ sePairs cfg trk v0s) := by
  have hset : ∀ p ∈ sePairs cfg trk v0s, p.1.globalIndex < p.2.globalIndex :=
    fun p hp => (pairPasses_facts _ _ _ _ (mem_sePairs_passes hp)).2.1
  have hndv : v0s.Nodup := List.Nodup.of_map _ hnd
  have hndp : (sePairs cfg trk v0s).Nodup :=
    List.Nodup.filter _ (List.Nodup.product hndv hndv)
  have hmem : (A, B) ∈ sePairs cfg trk v0s :=
    List.mem_filter.mpr ⟨List.pair_mem_product.mpr ⟨hA, hB⟩, hpass⟩
  refine ⟨countPair_eq_one_of_nodup hndp hmem, ?_, hset, ?_⟩
  · refine countPair_eq_zero_of_not_mem fun hBA => ?_
    exact absurd (hset (B, A) hBA) (not_lt.mpr (le_of_lt hlt))
  · intro C hC
    exact lt_irrefl _ (hset (C, C) hC)

theorem c2_unordered_pair_once_witness :
    countPair (sePairs cfgW trkW v0sW) (candA, candB) = 1 ∧
    countPair (sePairs cfgW trkW v0sW) (candB, candA) = 0 ∧
    (∀ p ∈ sePairs cfgW trkW v0sW, p.1.globalIndex < p.2.globalIndex) ∧
    (∀ C : V0Cand, (C, C) ∉ sePairs cfgW trkW v0sW) :=
  c2_unordered_pair_once cfgW trkW v0sW candA candB
    (by norm_num [v0sW, candA, candB])
    (by norm_num [v0sW]) (by norm_num [v0sW])
    (by norm_num [candA, candB])
    (by norm_num [pairPasses, prePairPasses, selectionV0,
      isSelectedV0Daughter, applyAngSep, sqrtGT, cfgW, candA, candB, trkW,
      posTrackW, negTrackW, massK0Short, massLambda0])

theorem addM_comm (a b : PxPyPzM) : addM a b = addM b a := by
  simp only [addM, PxPyPzE.mk.injEq]
  exact ⟨by ring, by ring, by ring, by ring⟩

theorem atan2_bounds (yv xv : ℝ) :
    -Real.pi < atan2 yv xv ∧ atan2 yv xv ≤ Real.pi := by
  have hpi := Real.pi_pos
  have hlt := Real.arctan_lt_pi_div_two (yv / xv)
  have hgt := Real.neg_pi_div_two_lt_arctan (yv / xv)
  by_cases hx : 0 < xv
  · rw [atan2, if_pos hx]
    exact ⟨by linarith, by linarith⟩
  · by_cases hx2 : xv < 0
    · by_cases hy : 0 ≤ yv
      · have hyx : yv / xv ≤ 0 := div_nonpos_iff.mpr (Or.inl ⟨hy, le_of_lt hx2⟩)
        have hle : Real.arctan (yv / xv) ≤ 0 := by
          have h0 := Real.arctan_strictMono.monotone hyx
          rwa [Real.arctan_zero] at h0
        rw [atan2, if_neg hx, if_pos hx2, if_pos hy]
        exact ⟨by linarith, by linarith⟩
      · have hyneg : yv < 0 := not_le.mp hy
        have hyx : 0 < yv / xv := div_pos_iff.mpr (Or.inr ⟨hyneg, hx2⟩)
        have hpos : 0 < Real.arctan (yv / xv) := by
          have h0 := Real.arctan_strictMono hyx
          rwa [Real.arctan_zero] at h0
        rw [atan2, if_neg hx, if_pos hx2, if_neg hy]
        exact ⟨by linarith, by linarith⟩
    · rw [atan2, if_neg hx, if_neg hx2]
      by_cases hy1 : 0 < yv
      · rw [if_pos hy1]
        exact ⟨by linarith, by linarith⟩
      · rw [if_neg hy1]
        by_cases hy2 : yv < 0
        · rw [if_pos hy2]
          exact ⟨by linarith, by linarith⟩
        · rw [if_neg hy2]
          exact ⟨by linarith, by linarith⟩

/-- C10: for every pair passed to the observable calculation, the azimuthal
angle of the boosted daughter is the two-argument arctangent shifted into
the interval from zero inclusive to two pi exclusive, with two pi added
exactly once when the raw arctangent is negative. -/
theorem c10_phi_normalized_once (yv xv : ℝ) :
    anglePhiOf yv xv =
      atan2 yv xv + (if atan2 yv xv < 0 then 2 * Real.pi else 0) ∧
    0 ≤ anglePhiOf yv xv ∧ anglePhiOf yv xv < 2 * Real.pi := by
  obtain ⟨hlow, hhigh⟩ := atan2_bounds yv xv
  have hpi := Real.pi_pos
  unfold anglePhiOf
  by_cases h : atan2 yv xv < 0
  · rw [if_pos h, if_pos h]
    exact ⟨rfl, by linarith, by linarith⟩
  · rw [if_neg h, if_neg h]
    have h0 := not_lt.mp h
    exact ⟨by ring, by linarith, by linarith⟩

/-- C8: the startup check is fatal exactly when no reference-axis policy is
enabled; with at least one policy enabled it passes. -/
theorem c8_init_fatal_iff_no_policy (h p b r : Bool) :
    initThnCheckFatal h p b r = true ↔
      h = false ∧ p = false ∧ b = false ∧ r = false := by
  cases h <;> cases p <;> cases b <;> cases r <;> decide

/-- C3 counterexample: with the rotational cut configured to 10 and the
unit draw one half, the sampled rotation angle equals pi and therefore lies
inside the band from pi minus pi over ten to pi plus pi over ten, refuting
the claim that the sampled angle never lies within that band. -/
theorem c3_counterexample :
    theta2draw 10 (1 / 2) = Real.pi ∧
    Real.pi - Real.pi / 10 ≤ theta2draw 10 (1 / 2) ∧
    theta2draw 10 (1 / 2) ≤ Real.pi + Real.pi / 10 := by
  have hpi := Real.pi_pos
  have heq : theta2draw 10 (1 / 2) = Real.pi := by
    unfold theta2draw uniformDraw
    ring
  refine ⟨heq, ?_, ?_⟩ <;> rw [heq] <;> linarith

/-- C3 amended: with the rotational cut configured to 10, every sampled
rotation angle lies inside the band from pi minus pi over ten to pi plus pi
over ten; the draw window excludes angles near zero rotation rather than
angles near pi. -/
theorem c3_rotation_angle_in_band (u : ℝ) (h0 : 0 ≤ u) (h1 : u ≤ 1) :
    Real.pi - Real.pi / 10 ≤ theta2draw 10 u ∧
    theta2draw 10 u ≤ Real.pi + Real.pi / 10 := by
  have hpi := Real.pi_pos
  unfold theta2draw uniformDraw
  constructor
  · nlinarith
  · nlinarith

theorem c3_rotation_angle_in_band_witness :
    (0 ≤ (1 / 2 : ℝ) ∧ (1 / 2 : ℝ) ≤ 1) ∧
    (Real.pi - Real.pi / 10 ≤ theta2draw 10 (1 / 2) ∧
     theta2draw 10 (1 / 2) ≤ Real.pi + Real.pi / 10) :=
  ⟨⟨by norm_num, by norm_num⟩,
   c3_rotation_angle_in_band (1 / 2) (by norm_num) (by norm_num)⟩

theorem rapidity_of_zero_pz (pxv pyv e : ℝ) (he : e ≠ 0) :
    rapidity ⟨pxv, pyv, 0, e⟩ = 0 := by
  show Real.log ((e + 0) / (e - 0)) / 2 = 0
  rw [add_zero, sub_zero, div_self he, Real.log_one, zero_div]

theorem motherEx_eq :
    motherEx = ⟨0, 0, 0, 2 * Real.sqrt (1 + 0.4976 ^ 2)⟩ := by
  simp only [motherEx, addM, dau1Ex, dau2Ex, energy, PxPyPzE.mk.injEq]
  norm_num
  ring

theorem massE_motherEx : massE motherEx = 2 * Real.sqrt (1 + 0.4976 ^ 2) := by
  rw [motherEx_eq]
  have he : (0 : ℝ) ≤ 2 * Real.sqrt (1 + 0.4976 ^ 2) := by positivity
  have hms : massSq ⟨0, 0, 0, 2 * Real.sqrt (1 + 0.4976 ^ 2)⟩ =
      (2 * Real.sqrt (1 + 0.4976 ^ 2)) ^ 2 := by
    show (2 * Real.sqrt (1 + 0.4976 ^ 2)) ^ 2 - ((0:ℝ) ^ 2 + 0 ^ 2 + 0 ^ 2) = _
    ring
  unfold massE
  rw [hms, if_neg (not_lt.mpr (by positivity)), Real.sqrt_sq he]

theorem ptE_motherEx : ptE motherEx = 0 := by
  rw [motherEx_eq]
  show Real.sqrt ((0:ℝ) ^ 2 + 0 ^ 2) = 0
  norm_num

/-- C4 counterexample: for the two back-to-back daughters with momenta
(1, 0, 0) and (-1, 0, 0) GeV under the 0.4976 GeV mass hypothesis, the
composite does not have invariant mass equal to twice 0.4976: its mass is
at least 2 GeV, since the daughter energies do not vanish with the
transverse momenta. -/
theorem c4_counterexample :
    ¬(ptE motherEx = 0 ∧ massE motherEx = 2 * 0.4976) := by
  rintro ⟨-, hm⟩
  rw [massE_motherEx] at hm
  have hs : (1 : ℝ) ≤ Real.sqrt (1 + 0.4976 ^ 2) := by
    rw [show (1:ℝ) = Real.sqrt 1 by rw [Real.sqrt_one]]
    exact Real.sqrt_le_sqrt (by norm_num)
  nlinarith

/-- C4 amended: the composite of the two back-to-back daughters has
transverse momentum zero and invariant mass equal to twice the square root
of one plus 0.4976 squared, that is twice the daughter energy. -/
theorem c4_back_to_back :
    ptE motherEx = 0 ∧ massE motherEx = 2 * Real.sqrt (1 + 0.4976 ^ 2) :=
  ⟨ptE_motherEx, massE_motherEx⟩

/-- C6: swapping the two daughters leaves the composite invariant mass and
transverse momentum unchanged, since the four-vector sum is symmetric. -/
theorem c6_swap_invariance (a b : PxPyPzM) :
    massE (addM a b) = massE (addM b a) ∧ ptE (addM a b) = ptE (addM b a) := by
  rw [addM_comm]
  exact ⟨rfl, rfl⟩

theorem rotEntriesHel_hist {cfg : ResoCfg} {mult : ℝ} {d1 d2 : PxPyPzM}
    {anglePhi : ℝ} {rotU : ℕ → ℝ} {r : FillRecord}
    (h : r ∈ rotEntriesHel cfg mult d1 d2 anglePhi rotU) :
    r.hist = HistId.Rot := by
  simp only [rotEntriesHel, List.mem_filterMap] at h
  obtain ⟨i, -, hi⟩ := h
  by_cases hc : rapidity (motherRotHel d1 d2 (rotAngle cfg rotU i)) < 1 / 2
  · rw [if_pos hc] at hi
    injection hi with hi
    rw [← hi]
    rfl
  · rw [if_neg hc] at hi
    cases hi

theorem rotEntriesStd_hist {cfg : ResoCfg} {mult : ℝ} {mother : PxPyPzE}
    {cosT anglePhi : ℝ} {rotU : ℕ → ℝ} {r : FillRecord}
    (h : r ∈ rotEntriesStd cfg mult mother cosT anglePhi rotU) :
    r.hist = HistId.Rot := by
  simp only [rotEntriesStd, List.mem_filterMap] at h
  obtain ⟨i, -, hi⟩ := h
  by_cases hc : |rapidity (toE (motherRotM mother (rotAngle cfg rotU i)))| < 1 / 2
  · rw [if_pos hc] at hi
    injection hi with hi
    rw [← hi]
    rfl
  · rw [if_neg hc] at hi
    cases hi

theorem stdBranch_DS_iff (cfg : ResoCfg) (mother : PxPyPzE)
    (mult cosT anglePhi : ℝ) (rotU : ℕ → ℝ) :
    (∃ r ∈ stdBranch cfg mother mult cosT anglePhi false rotU,
        r.hist = HistId.DS) ↔ |rapidity mother| < 1 / 2 := by
  unfold stdBranch
  simp only [Bool.not_false, if_true]
  constructor
  · rintro ⟨r, hr, hDS⟩
    rcases List.mem_append.mp hr with h1 | h2
    · by_cases hgate : |rapidity mother| < 1 / 2
      · exact hgate
      · rw [if_neg hgate] at h1
        cases h1
    · have hrot := rotEntriesStd_hist h2
      rw [hDS] at hrot
      cases hrot
  · intro hgate
    rw [if_pos hgate]
    exact ⟨_, List.mem_append.mpr (Or.inl (List.mem_singleton_self _)), rfl⟩

/-- C7: for a same-event (non-mixed) pair and an active reference-axis
policy, the primary observables are recorded into the same-event histogram
exactly when the absolute rapidity of the composite is below one half. -/
theorem c7_primary_gated_by_rapidity (cfg : ResoCfg) (mother : PxPyPzE)
    (mult : ℝ) (d1 d2 : PxPyPzM) (rotU : ℕ → ℝ) (phiRandom thetaRandom : ℝ)
    (hpol : cfg.activateTHnSparseCosThStarHelicity = true ∨
      cfg.activateTHnSparseCosThStarProduction = true ∨
      cfg.activateTHnSparseCosThStarBeam = true ∨
      cfg.activateTHnSparseCosThStarRandom = true) :
    (∃ r ∈ fillInvMass cfg mother mult d1 d2 false rotU phiRandom thetaRandom,
        r.hist = HistId.DS) ↔ |rapidity mother| < 1 / 2 := by
  simp only [fillInvMass, Bool.not_false, if_true]
  by_cases hhel : cfg.activateTHnSparseCosThStarHelicity = true
  · rw [if_pos hhel]
    constructor
    · rintro ⟨r, hr, hDS⟩
      rcases List.mem_append.mp hr with h1 | h2
      · by_cases hgate : |rapidity mother| < 1 / 2
        · exact hgate
        · rw [if_neg hgate] at h1
          cases h1
      · have hrot := rotEntriesHel_hist h2
        rw [hDS] at hrot
        cases hrot
    · intro hgate
      rw [if_pos hgate]
      exact ⟨_, List.mem_append.mpr (Or.inl (List.mem_singleton_self _)), rfl⟩
  · rw [if_neg hhel]
    by_cases hprod : cfg.activateTHnSparseCosThStarProduction = true
    · rw [if_pos hprod]
      exact stdBranch_DS_iff cfg mother mult _ _ rotU
    · rw [if_neg hprod]
      by_cases hbeam : cfg.activateTHnSparseCosThStarBeam = true
      · rw [if_pos hbeam]
        exact stdBranch_DS_iff cfg mother mult _ _ rotU
      · rw [if_neg hbeam]
        by_cases hrand : cfg.activateTHnSparseCosThStarRandom = true
        · rw [if_pos hrand]
          exact stdBranch_DS_iff cfg mother mult _ _ rotU
        · rcases hpol with h | h | h | h <;> contradiction

theorem c7_primary_gated_by_rapidity_witness :
    ∃ r ∈ fillInvMass cfgW motherEx 0 dau1Ex dau2Ex false rotUW 0 0,
      r.hist = HistId.DS := by
  have hrap : |rapidity motherEx| < 1 / 2 := by
    rw [motherEx_eq, rapidity_of_zero_pz _ _ _ (by positivity)]
    norm_num
  exact (c7_primary_gated_by_rapidity cfgW motherEx 0 dau1Ex dau2Ex rotUW 0 0
    (Or.inr (Or.inr (Or.inl rfl)))).mpr hrap

/-- C9: in the helicity policy the rotational-background fill of each draw
is gated by the signed rapidity of the rotated composite being below one
half, so draws with rapidity at or below minus one half are still
recorded, whereas in the production, beam and random policies the fill of
each draw requires the absolute rapidity of the rotated composite to be
below one half. -/
theorem c9_rot_rapidity_gating (cfg : ResoCfg) (mult : ℝ) (d1 d2 : PxPyPzM)
    (mother : PxPyPzE) (cosT anglePhi : ℝ) (rotU : ℕ → ℝ) :
    (∀ i, i < cfg.cRotations →
        rapidity (motherRotHel d1 d2 (rotAngle cfg rotU i)) < 1 / 2 →
        helRotRec cfg mult d1 d2 anglePhi rotU i ∈
          rotEntriesHel cfg mult d1 d2 anglePhi rotU) ∧
    (∀ r ∈ rotEntriesHel cfg mult d1 d2 anglePhi rotU,
        ∃ i, i < cfg.cRotations ∧
          r = helRotRec cfg mult d1 d2 anglePhi rotU i ∧
          rapidity (motherRotHel d1 d2 (rotAngle cfg rotU i)) < 1 / 2) ∧
    (∀ i, i < cfg.cRotations →
        |rapidity (toE (motherRotM mother (rotAngle cfg rotU i)))| < 1 / 2 →
        stdRotRec cfg mult mother cosT anglePhi rotU i ∈
          rotEntriesStd cfg mult mother cosT anglePhi rotU) ∧
    (∀ r ∈ rotEntriesStd cfg mult mother cosT anglePhi rotU,
        ∃ i, i < cfg.cRotations ∧
          r = stdRotRec cfg mult mother cosT anglePhi rotU i ∧
          |rapidity (toE (motherRotM mother (rotAngle cfg rotU i)))| < 1 / 2) := by
  refine ⟨?_, ?_, ?_, ?_⟩
  · intro i hi hrap
    exact List.mem_filterMap.mpr
      ⟨i, List.mem_range.mpr hi, by rw [if_pos hrap]⟩
  · intro r hr
    obtain ⟨i, hi, heq⟩ := List.mem_filterMap.mp hr
    refine ⟨i, List.mem_range.mp hi, ?_⟩
    by_cases hc : rapidity (motherRotHel d1 d2 (rotAngle cfg rotU i)) < 1 / 2
    · rw [if_pos hc] at heq
      injection heq with heq
      exact ⟨heq.symm, hc⟩
    · rw [if_neg hc] at heq
      cases heq
  · intro i hi hrap
    exact List.mem_filterMap.mpr
      ⟨i, List.mem_range.mpr hi, by rw [if_pos hrap]⟩
  · intro r hr
    obtain ⟨i, hi, heq⟩ := List.mem_filterMap.mp hr
    refine ⟨i, List.mem_range.mp hi, ?_⟩
    by_cases hc :
        |rapidity (toE (motherRotM mother (rotAngle cfg rotU i)))| < 1 / 2
    · rw [if_pos hc] at heq
      injection heq with heq
      exact ⟨heq.symm, hc⟩
    · rw [if_neg hc] at heq
      cases heq

theorem c9_rot_rapidity_gating_witness :
    helRotRec cfgW 0 dau1Ex dau2Ex 0 rotUW 0 ∈
      rotEntriesHel cfgW 0 dau1Ex dau2Ex 0 rotUW := by
  have hrot : rotAngle cfgW rotUW 0 = Real.pi := by
    show theta2draw ((10 : ℤ) : ℝ) (1 / 2) = Real.pi
    unfold theta2draw uniformDraw
    push_cast
    ring
  have hmR : motherRotHel dau1Ex dau2Ex Real.pi =
      ⟨-2, 0, 0, 2 * Real.sqrt (1 + 0.4976 ^ 2)⟩ := by
    simp only [motherRotHel, rotDaughter, addM, dau1Ex, dau2Ex, energy,
      Real.cos_pi, Real.sin_pi, PxPyPzE.mk.injEq]
    norm_num
    ring
  have hrap : rapidity (motherRotHel dau1Ex dau2Ex (rotAngle cfgW rotUW 0)) <
      1 / 2 := by
    rw [hrot, hmR, rapidity_of_zero_pz _ _ _ (by positivity)]
    norm_num
  exact (c9_rot_rapidity_gating cfgW 0 dau1Ex dau2Ex motherEx 0 0 rotUW).1 0
    (by norm_num [cfgW]) hrap

/-- C5: a candidate whose pT lies below the lowest configured bin edge gets
the no-bin sentinel from the bin lookup and is rejected by both topological
selections, regardless of every other cut value and candidate quantity. -/
theorem c5_below_lowest_edge_rejected (sel : D0SelCfg) (c : HfCand2Prong)
    (tPi tKa : D0Track) (b0 : ℚ) (rest : List ℚ)
    (hbins : sel.binsPt = b0 :: rest) (hlow : c.pt < b0) :
    findBin sel.binsPt c.pt = -1 ∧ selectionTopol sel c = false ∧
    selectionTopolConjugate sel c tPi tKa = false := by
  have hfb : findBin sel.binsPt c.pt = -1 := by
    rw [hbins]
    unfold findBin
    have hd : decide (b0 ≤ c.pt) = false :=
      decide_eq_false (not_le.mpr hlow)
    simp [List.takeWhile_cons, hd]
  refine ⟨hfb, ?_, ?_⟩
  · unfold selectionTopol
    rw [hfb]
    simp
  · unfold selectionTopolConjugate
    rw [hfb]
    simp

theorem c5_below_lowest_edge_rejected_witness :
    (d0SelW.binsPt = (1 : ℚ) :: [2] ∧ d0CandW.pt < 1) ∧
    (findBin d0SelW.binsPt d0CandW.pt = -1 ∧
     selectionTopol d0SelW d0CandW = false ∧
     selectionTopolConjugate d0SelW d0CandW d0TrackW d0TrackW = false) :=
  ⟨⟨rfl, by norm_num [d0CandW]⟩,
   c5_below_lowest_edge_rejected d0SelW d0CandW d0TrackW d0TrackW 1 [2]
     rfl (by norm_num [d0CandW])⟩

end O2Phys
